import Mathlib

/-!
Shallow embedding of the CalorieFlow storage, date-utility, analytics and
auth code.  Dates and timestamps are modelled as integers counting
milliseconds since the Unix epoch; the device local time zone is fixed at
UTC+0, so local calendar-day boundaries fall on multiples of 86400000 ms.
JavaScript `Date.prototype.toDateString()` equality (used by the code for
calendar-day comparison) is modelled as equality of the floor quotient
`dayOf`.
-/

/-- Milliseconds in one calendar day. -/
def msPerDay : Int := 86400000

/-- Local calendar day index of a millisecond timestamp (floor division:
this is how local-day boundaries bucket timestamps, also before the epoch). -/
def dayOf (t : Int) : Int := Int.fdiv t msPerDay

/-- `setHours(0,0,0,0)`: midnight starting the day that contains `t`. -/
def startOfDay (t : Int) : Int := dayOf t * msPerDay

/-- `setHours(23,59,59,999)`: the last millisecond of the day containing `t`. -/
def endOfDay (t : Int) : Int := startOfDay t + (msPerDay - 1)

/-!
Data model.  Records are Lean structures with the fields the code creates;
the localStorage collections are passed explicitly as lists, and each
operation returns the new stored list together with its return value.
`Date.now()` is passed in as an explicit `now : Int` parameter.  Dynamic
JSON field values fed to `parseInt` are modelled as `Option String`
(a number stringifies to its decimal form, an absent field is `none`).
-/

/-- A stored food-log record (`Storage.saveFoodEntry` assigns `id` and
`createdAt` from the wall clock). -/
structure FoodEntry where
  id : String
  name : String
  quantity : Option String
  calories : Option String
  date : Int
  createdAt : Int
deriving DecidableEq

/-- The fields a food-entry form submission carries. -/
structure FoodEntryIn where
  name : String
  quantity : Option String
  calories : Option String
  date : Int
deriving DecidableEq

/-- A partial update object for a food entry: `none` means the key is
absent from the update object. -/
structure FoodEntryUpdate where
  name : Option String := none
  quantity : Option (Option String) := none
  calories : Option (Option String) := none
  date : Option Int := none
deriving DecidableEq

/-- The JS spread merge `\x7b ...e, ...u \x7d`: every key present in `u`
overwrites the one in `e`, absent keys keep their prior value. -/
def mergeFoodEntry (e : FoodEntry) (u : FoodEntryUpdate) : FoodEntry :=
  { e with
    name := u.name.getD e.name
    quantity := u.quantity.getD e.quantity
    calories := u.calories.getD e.calories
    date := u.date.getD e.date }

/-- `Storage.getFoodEntries` on an absent key: the empty collection. -/
def emptyFoodEntries : List FoodEntry := []

/-- `Storage.saveFoodEntry`: assign id and createdAt, push, persist. -/
def saveFoodEntry (now : Int) (e : FoodEntryIn) (entries : List FoodEntry) :
    List FoodEntry × FoodEntry :=
  let entry : FoodEntry :=
    { id := toString now, name := e.name, quantity := e.quantity,
      calories := e.calories, date := e.date, createdAt := now }
  (entries ++ [entry], entry)

/-- `Storage.updateFoodEntry`: `findIndex` by id, then in-place assignment of
the merged record; modelled as replace-first recursion, which performs the
same first-match replacement. -/
def updateFoodEntry (id : String) (u : FoodEntryUpdate) :
    List FoodEntry → List FoodEntry × Option FoodEntry
  | [] => ([], none)
  | e :: rest =>
    if e.id = id then
      (mergeFoodEntry e u :: rest, some (mergeFoodEntry e u))
    else
      let r := updateFoodEntry id u rest
      (e :: r.1, r.2)

/-- `Storage.deleteFoodEntry`: filter out matching ids, always return true. -/
def deleteFoodEntry (id : String) (entries : List FoodEntry) :
    List FoodEntry × Bool :=
  (entries.filter (fun e => e.id ≠ id), true)

/-- `Storage.getFoodEntriesByDate`: keep entries on the same local calendar
day as the target (`toDateString()` comparison). -/
def getFoodEntriesByDate (date : Int) (entries : List FoodEntry) : List FoodEntry :=
  entries.filter (fun e => dayOf e.date = dayOf date)

/-- `Storage.getFoodEntriesByDateRange`: normalize the start to 00:00:00.000
and the end to 23:59:59.999 local time, then keep entries whose date lies in
the inclusive interval. -/
def getFoodEntriesByDateRange (startDate endDate : Int) (entries : List FoodEntry) :
    List FoodEntry :=
  let start := startOfDay startDate
  let stop := endOfDay endDate
  entries.filter (fun e => start ≤ e.date ∧ e.date ≤ stop)

/-- A stored weight record. -/
structure WeightEntry where
  id : String
  date : Int
  weight : Rat
  createdAt : Int
deriving DecidableEq

/-- The fields a weight form submission carries. -/
structure WeightEntryIn where
  date : Int
  weight : Rat
deriving DecidableEq

/-- The comparator of `entries.sort((a, b) => new Date(a.date) - new Date(b.date))`:
ascending by date. -/
def wle (a b : WeightEntry) : Prop := a.date ≤ b.date

instance : DecidableRel wle := fun a b => inferInstanceAs (Decidable (a.date ≤ b.date))

instance : IsTotal WeightEntry wle := ⟨fun a b => Int.le_total a.date b.date⟩

instance : IsTrans WeightEntry wle := ⟨fun _ _ _ h1 h2 => le_trans h1 h2⟩

/-- The `findIndex`-by-calendar-day plus in-place merge step of
`Storage.saveWeightEntry`: replace the first entry sharing the calendar day
of the new entry with `\x7b ...existing, ...entry \x7d` (the new entry sets
every field of the record, so the merge overwrites the whole record);
`none` when no entry shares the day. -/
def replaceFirstSameDay (entry : WeightEntry) :
    List WeightEntry → Option (List WeightEntry)
  | [] => none
  | e :: rest =>
    if dayOf e.date = dayOf entry.date then
      some ({ e with
        id := entry.id, date := entry.date,
        weight := entry.weight, createdAt := entry.createdAt } :: rest)
    else
      (replaceFirstSameDay entry rest).map (e :: ·)

/-- The record `Storage.saveWeightEntry` builds before storing: the form
fields plus the freshly assigned `id` and `createdAt`. -/
def mkWeightEntry (now : Int) (inp : WeightEntryIn) : WeightEntry :=
  { id := toString now, date := inp.date, weight := inp.weight, createdAt := now }

/-- The upsert rule of `Storage.saveWeightEntry`: overwrite the entry of the
same calendar day when one exists, else push the new entry. -/
def upsertByDay (entry : WeightEntry) (entries : List WeightEntry) : List WeightEntry :=
  match replaceFirstSameDay entry entries with
  | some l => l
  | none => entries ++ [entry]

/-- `Storage.saveWeightEntry`: assign id and createdAt, upsert by calendar
day, then sort ascending by date.  `Array.prototype.sort` is stable, and a
stable ascending sort computes the same list as insertion sort. -/
def saveWeightEntry (now : Int) (inp : WeightEntryIn) (entries : List WeightEntry) :
    List WeightEntry × WeightEntry :=
  let entry := mkWeightEntry now inp
  (List.insertionSort wle (upsertByDay entry entries), entry)

/-- `Storage.deleteWeightEntry`: filter out matching ids, always return true. -/
def deleteWeightEntry (id : String) (entries : List WeightEntry) :
    List WeightEntry × Bool :=
  (entries.filter (fun e => e.id ≠ id), true)

/-- `Storage.getLatestWeight`: null when empty, else the last element. -/
def getLatestWeight (entries : List WeightEntry) : Option WeightEntry :=
  if entries.length = 0 then none else entries.getLast?

/-- One write operation on the weight collection. -/
inductive WeightOp where
  | save (now : Int) (inp : WeightEntryIn)
  | del (id : String)

/-- Apply one weight write to the stored collection. -/
def applyWeightOp (l : List WeightEntry) : WeightOp → List WeightEntry
  | .save now inp => (saveWeightEntry now inp l).1
  | .del id => (deleteWeightEntry id l).1

/-- The stored weight collection after a sequence of writes starting from
the empty collection. -/
def applyWeightOps (ops : List WeightOp) : List WeightEntry :=
  ops.foldl applyWeightOp []

/-- A stored recipe record. -/
structure Recipe where
  id : String
  name : String
  calories : Option String
  ingredients : Option String
  instructions : Option String
  image : Option String
  createdAt : Int
deriving DecidableEq

/-- A partial update object for a recipe. -/
structure RecipeUpdate where
  name : Option String := none
  calories : Option (Option String) := none
  ingredients : Option (Option String) := none
  instructions : Option (Option String) := none
  image : Option (Option String) := none
deriving DecidableEq

/-- The JS spread merge `\x7b ...r, ...u \x7d` for recipes. -/
def mergeRecipe (r : Recipe) (u : RecipeUpdate) : Recipe :=
  { r with
    name := u.name.getD r.name
    calories := u.calories.getD r.calories
    ingredients := u.ingredients.getD r.ingredients
    instructions := u.instructions.getD r.instructions
    image := u.image.getD r.image }

/-- `Storage.updateRecipe`: `findIndex` by id, then in-place assignment of
the merged record; modelled as replace-first recursion. -/
def updateRecipe (id : String) (u : RecipeUpdate) :
    List Recipe → List Recipe × Option Recipe
  | [] => ([], none)
  | r :: rest =>
    if r.id = id then
      (mergeRecipe r u :: rest, some (mergeRecipe r u))
    else
      let t := updateRecipe id u rest
      (r :: t.1, t.2)

/-- `Storage.deleteRecipe`: filter out matching ids, always return true. -/
def deleteRecipe (id : String) (recipes : List Recipe) : List Recipe × Bool :=
  (recipes.filter (fun r => r.id ≠ id), true)

/-- `Storage.getRecipeById`: linear scan for the first match. -/
def getRecipeById (id : String) (recipes : List Recipe) : Option Recipe :=
  recipes.find? (fun r => r.id = id)

/-- The settings record. -/
structure Settings where
  calorieGoal : Int
  weightUnit : String
deriving DecidableEq

/-- The defaults returned when no settings record was ever saved. -/
def defaultSettings : Settings := { calorieGoal := 2000, weightUnit := "kg" }

/-- A partial settings update object. -/
structure SettingsUpdate where
  calorieGoal : Option Int := none
  weightUnit : Option String := none
deriving DecidableEq

/-- `Storage.getSettings`: the stored record, or the defaults when the key
is absent. -/
def getSettings (stored : Option Settings) : Settings :=
  stored.getD defaultSettings

/-- `Storage.saveSettings`: merge the update onto the current (or default)
settings, `\x7b ...current, ...settings \x7d`. -/
def saveSettings (u : SettingsUpdate) (stored : Option Settings) : Option Settings :=
  some
    { calorieGoal := u.calorieGoal.getD (getSettings stored).calorieGoal
      weightUnit := u.weightUnit.getD (getSettings stored).weightUnit }

/-!
Date utilities (`Utils`).  `getDay()` returns the local weekday, 0 for
Sunday through 6 for Saturday; day 0 of the epoch was a Thursday, hence the
offset 4.  `setDate` performs calendar-day arithmetic and keeps the
time-of-day component.
-/

/-- The local weekday of a timestamp, 0 = Sunday .. 6 = Saturday. -/
def weekday (t : Int) : Int := (dayOf t + 4) % 7

/-- `Utils.addDays`: shift a timestamp by whole calendar days. -/
def addDays (t n : Int) : Int := t + n * msPerDay

/-- `Utils.getWeekStart`: subtract 6 days on a Sunday, otherwise subtract
(weekday - 1) days, via `setDate(getDate() - day + (day === 0 ? -6 : 1))`. -/
def getWeekStart (t : Int) : Int :=
  let day := weekday t
  addDays t (if day = 0 then -6 else 1 - day)

/-- `Utils.getWeekEnd`: the week start plus 6 days. -/
def getWeekEnd (t : Int) : Int := addDays (getWeekStart t) 6

/-- Value of the longest leading run of decimal digits, `none` when the run
is empty. -/
def decDigitsValue (cs : List Char) : Option Nat :=
  let ds := cs.takeWhile (fun c => c.isDigit)
  if ds.isEmpty then none
  else some (ds.foldl (fun n c => n * 10 + (c.toNat - 48)) 0)

/-- Hexadecimal digit predicate of JS `parseInt` radix-16 parsing. -/
def isHexDigitJS (c : Char) : Bool :=
  c.isDigit ∨ ('a' ≤ c ∧ c ≤ 'f') ∨ ('A' ≤ c ∧ c ≤ 'F')

/-- Numeric value of a hexadecimal digit character. -/
def hexDigitValue (c : Char) : Nat :=
  if c.isDigit then c.toNat - 48
  else if 'a' ≤ c ∧ c ≤ 'f' then c.toNat - 87
  else c.toNat - 55

/-- Value of the longest leading run of hexadecimal digits. -/
def hexDigitsValue (cs : List Char) : Option Nat :=
  let ds := cs.takeWhile isHexDigitJS
  if ds.isEmpty then none
  else some (ds.foldl (fun n c => n * 16 + hexDigitValue c) 0)

/-- Magnitude part of JS `parseInt` with no explicit radix: a leading
`0x`/`0X` selects base 16, anything else parses base 10. -/
def parseIntMag : List Char → Option Nat
  | '0' :: 'x' :: rest => hexDigitsValue rest
  | '0' :: 'X' :: rest => hexDigitsValue rest
  | cs => decDigitsValue cs

/-- JS `parseInt(s)`: skip leading whitespace, read an optional sign, then
the longest digit prefix; `none` models the NaN result when no digit
follows. -/
def parseIntJS (s : String) : Option Int :=
  let cs := s.toList.dropWhile (fun c => c.isWhitespace)
  match cs with
  | '-' :: rest => (parseIntMag rest).map (fun n => -(n : Int))
  | '+' :: rest => (parseIntMag rest).map (fun n => (n : Int))
  | _ => (parseIntMag cs).map (fun n => (n : Int))

/-- The per-entry contribution `parseInt(e.calories) || 0`: NaN (a missing
field or a failed parse) contributes 0. -/
def calorieValue (c : Option String) : Int :=
  (c.bind parseIntJS).getD 0

/-- `Utils.calculateTotalCalories`: reduce over the entries, adding
`parseInt(e.calories) || 0` to the accumulator starting from 0. -/
def calculateTotalCalories (entries : List FoodEntry) : Int :=
  entries.foldl (fun sum e => sum + calorieValue e.calories) 0

/-!
Auth (`Auth` module): PIN hashing and PIN setup.  The stored hash in
localStorage is passed explicitly as an `Option String`.
-/

/-- JS `ToInt32`: wrap an integer into the signed 32-bit range, as the
bitwise operators `<<` and `&` do. -/
def toInt32 (x : Int) : Int := (x + 2 ^ 31) % 2 ^ 32 - 2 ^ 31

/-- The loop of `Auth.hashPin`: per character,
`hash = ((hash << 5) - hash) + charCode` followed by the 32-bit truncation
`hash = hash & hash`. -/
def hashPinLoop (pin : String) : Int :=
  pin.toList.foldl (fun h c => toInt32 (toInt32 (h * 32) - h + c.toNat)) 0

/-- Digit characters of JS base-36 number formatting: `0-9` then `a-z`. -/
def digitChar36 (n : Nat) : Char :=
  if n < 10 then Char.ofNat (48 + n) else Char.ofNat (87 + n)

/-- JS `Number.prototype.toString(36)` on a natural number. -/
def toBase36 (n : Nat) : String :=
  if n < 36 then String.mk [digitChar36 n]
  else toBase36 (n / 36) ++ String.mk [digitChar36 (n % 36)]
termination_by n
decreasing_by exact Nat.div_lt_self (by omega) (by omega)

/-- `Auth.hashPin`: the salted, base-36, length-tagged hash string. -/
def hashPin (pin : String) : String :=
  "cf_" ++ toBase36 (hashPinLoop pin).natAbs ++ "_" ++ toString pin.length

/-- The structured result object of `Auth.setPin`. -/
structure SetPinResult where
  success : Bool
  error : Option String
deriving DecidableEq

/-- `Auth.setPin`: reject a PIN shorter than 4 characters with a structured
failure and leave the stored hash alone; otherwise store the hash and
report success. -/
def setPin (pin : String) (stored : Option String) : Option String × SetPinResult :=
  if pin.length < 4 then
    (stored, { success := false, error := some "PIN must be at least 4 characters" })
  else
    (some (hashPin pin), { success := true, error := none })

/-!
Analytics (`App.updateAnalytics`, monthly series): for `w = 3` down to `0`,
`wStart = addDays(today, -7 * (w + 1))` and `wEnd = addDays(wStart, 6)`;
the bucket value is the calorie sum of the inclusive range query.
-/

/-- The four monthly-chart windows, in the order the loop pushes them. -/
def monthlyWindows (today : Int) : List (Int × Int) :=
  ([3, 2, 1, 0] : List Int).map (fun w =>
    let wStart := addDays today (-7 * (w + 1))
    (wStart, addDays wStart 6))

/-- The four monthly-chart bucket values, oldest first. -/
def monthlySeries (today : Int) (entries : List FoodEntry) : List Int :=
  (monthlyWindows today).map (fun w =>
    calculateTotalCalories (getFoodEntriesByDateRange w.1 w.2 entries))

/-- The calendar-day key of a weight entry, the value the upsert rule keys
on. -/
def dayKey (e : WeightEntry) : Int := dayOf e.date

/-- The stored weight collection after a sequence of saves (no deletes)
starting from the empty collection. -/
def applyWeightSaves (ops : List (Int × WeightEntryIn)) : List WeightEntry :=
  ops.foldl (fun l p => (saveWeightEntry p.1 p.2 l).1) []

/-!
Arithmetic facts about the calendar-day model, used throughout the proofs.
-/

/-- Floor-division decomposition of a timestamp into day index and
millisecond-of-day remainder. -/
theorem dayOf_decomp (t : Int) :
    msPerDay * dayOf t + Int.fmod t msPerDay = t ∧
    0 ≤ Int.fmod t msPerDay ∧ Int.fmod t msPerDay < msPerDay :=
  ⟨Int.fdiv_add_fmod t msPerDay,
   Int.fmod_nonneg' t (by norm_num [msPerDay]),
   Int.fmod_lt_of_pos t (by norm_num [msPerDay])⟩

/-- A day index bounds `dayOf t` from below iff its midnight bounds `t`. -/
theorem le_dayOf_iff {d t : Int} : d ≤ dayOf t ↔ d * msPerDay ≤ t := by
  obtain ⟨h1, h2, h3⟩ := dayOf_decomp t
  simp only [msPerDay] at h1 h2 h3 ⊢
  omega

/-- A day index bounds `dayOf t` from above iff its last millisecond
bounds `t`. -/
theorem dayOf_le_iff {d t : Int} : dayOf t ≤ d ↔ t ≤ d * msPerDay + (msPerDay - 1) := by
  obtain ⟨h1, h2, h3⟩ := dayOf_decomp t
  simp only [msPerDay] at h1 h2 h3 ⊢
  omega

/-- Shifting a timestamp by whole days shifts its day index accordingly. -/
theorem dayOf_add_mul (t k : Int) : dayOf (t + k * msPerDay) = dayOf t + k := by
  obtain ⟨h1, h2, h3⟩ := dayOf_decomp t
  obtain ⟨g1, g2, g3⟩ := dayOf_decomp (t + k * msPerDay)
  simp only [msPerDay] at h1 h2 h3 g1 g2 g3 ⊢
  omega

/-- `dayOf` is monotone. -/
theorem dayOf_mono {s t : Int} (h : s ≤ t) : dayOf s ≤ dayOf t := by
  rw [le_dayOf_iff]
  exact le_trans (le_dayOf_iff.mp (le_refl (dayOf s))) h

/-- Folding an integer-valued addition equals the sum of the mapped list. -/
theorem foldl_add_eq_sum (f : FoodEntry → Int) (l : List FoodEntry) (a : Int) :
    l.foldl (fun s x => s + f x) a = a + (l.map f).sum := by
  induction l generalizing a with
  | nil => simp
  | cons x xs ih => simp [ih, add_assoc]

/-- C6: when no settings were ever saved, `getSettings` returns the defaults
(calorie goal 2000, weight unit kg); `saveSettings` merges a partial update
onto the current (or default) values, so every key absent from the update
keeps its prior value; in particular saving only a calorie goal of 1800 on
defaults leaves the weight unit at kg. -/
theorem c6_settings_default_merge :
    getSettings none = { calorieGoal := 2000, weightUnit := "kg" } ∧
    (∀ (stored : Option Settings) (u : SettingsUpdate),
      (u.calorieGoal = none →
        (getSettings (saveSettings u stored)).calorieGoal =
          (getSettings stored).calorieGoal) ∧
      (u.weightUnit = none →
        (getSettings (saveSettings u stored)).weightUnit =
          (getSettings stored).weightUnit)) ∧
    (getSettings (saveSettings { calorieGoal := some 1800 } none)).weightUnit = "kg" := by
  refine ⟨rfl, ?_, rfl⟩
  intro stored u
  constructor
  · intro h; simp [saveSettings, getSettings, h]
  · intro h; simp [saveSettings, getSettings, h]

/-- C6 witness: the merge conjunct applied at the concrete scenario input. -/
theorem c6_settings_default_merge_witness :
    (getSettings (saveSettings { calorieGoal := some 1800 } none)).weightUnit =
      (getSettings none).weightUnit :=
  (c6_settings_default_merge.2.1 none { calorieGoal := some 1800 }).2 rfl

/-- C8: deleting an id that matches no food entry reports success and leaves
the collection unchanged, and delete is idempotent on any collection. -/
theorem c8_delete_noop_idempotent (entries : List FoodEntry) (id : String) :
    ((∀ e ∈ entries, e.id ≠ id) → deleteFoodEntry id entries = (entries, true)) ∧
    deleteFoodEntry id (deleteFoodEntry id entries).1 = deleteFoodEntry id entries ∧
    (deleteFoodEntry id entries).2 = true := by
  refine ⟨?_, ?_, rfl⟩
  · intro h
    simp only [deleteFoodEntry, Prod.mk.injEq, and_true]
    exact List.filter_eq_self.mpr (fun e he => by simpa using h e he)
  · simp only [deleteFoodEntry, Prod.mk.injEq, and_true]
    exact List.filter_eq_self.mpr (fun e he => (List.mem_filter.mp he).2)

/-- C8 witness: deleting a missing id from a concrete collection. -/
theorem c8_delete_noop_idempotent_witness :
    deleteFoodEntry "2"
      [{ id := "1", name := "Egg", quantity := none, calories := some "70",
         date := 0, createdAt := 0 }] =
      ([{ id := "1", name := "Egg", quantity := none, calories := some "70",
          date := 0, createdAt := 0 }], true) :=
  (c8_delete_noop_idempotent _ "2").1 (by decide)

/-- C9: a PIN shorter than 4 characters yields the structured failure result
and leaves the stored hash untouched; a PIN of length at least 4 stores its
hash and reports success. -/
theorem c9_setpin_validation (pin : String) (stored : Option String) :
    (pin.length < 4 →
      setPin pin stored =
        (stored, { success := false,
                   error := some "PIN must be at least 4 characters" })) ∧
    (4 ≤ pin.length →
      setPin pin stored = (some (hashPin pin), { success := true, error := none })) := by
  constructor
  · intro h; simp [setPin, h]
  · intro h; simp [setPin, Nat.not_lt.mpr h]

/-- C9 witness: a 3-character PIN fails and a 4-character PIN succeeds. -/
theorem c9_setpin_validation_witness :
    setPin "123" none =
      (none, { success := false, error := some "PIN must be at least 4 characters" }) ∧
    setPin "1234" none = (some (hashPin "1234"), { success := true, error := none }) :=
  ⟨(c9_setpin_validation "123" none).1 (by decide),
   (c9_setpin_validation "1234" none).2 (by decide)⟩

/-- C10: the calorie total is the integer sum of the per-entry contributions
`parseInt(calories) || 0`; a missing calories field contributes 0, a field
that fails to parse contributes 0, and a field parsing to `n` contributes
`n` — so the total is a well-defined integer for every list of entries. -/
theorem c10_total_calories (entries : List FoodEntry) :
    calculateTotalCalories entries =
      (entries.map (fun e => calorieValue e.calories)).sum ∧
    calorieValue none = 0 ∧
    (∀ s, parseIntJS s = none → calorieValue (some s) = 0) ∧
    (∀ s n, parseIntJS s = some n → calorieValue (some s) = n) := by
  refine ⟨?_, rfl, ?_, ?_⟩
  · simpa using foldl_add_eq_sum (fun e => calorieValue e.calories) entries 0
  · intro s h; simp [calorieValue, h]
  · intro s n h; simp [calorieValue, h]

/-- C10 witness: a non-numeric calories string contributes 0. -/
theorem c10_total_calories_witness : calorieValue (some "abc") = 0 :=
  (c10_total_calories []).2.2.1 "abc" (by decide)

/-- C7: `getWeekStart` implements the subtract-6-on-Sunday, otherwise
subtract-(weekday minus 1) rule; its result is a Monday lying at most six
days before the input, so it is the Monday of the week containing the input;
a Wednesday maps to the Monday two days prior and a Sunday to the Monday six
days prior; `getWeekEnd` is the week start plus 6 days. -/
theorem c7_week_start (t : Int) :
    getWeekStart t = addDays t (if weekday t = 0 then -6 else 1 - weekday t) ∧
    weekday (getWeekStart t) = 1 ∧
    dayOf (getWeekStart t) ≤ dayOf t ∧
    dayOf t ≤ dayOf (getWeekStart t) + 6 ∧
    (weekday t = 3 → getWeekStart t = addDays t (-2)) ∧
    (weekday t = 0 → getWeekStart t = addDays t (-6)) ∧
    getWeekEnd t = addDays (getWeekStart t) 6 := by
  have hw : 0 ≤ weekday t ∧ weekday t < 7 :=
    ⟨Int.emod_nonneg _ (by norm_num), Int.emod_lt_of_pos _ (by norm_num)⟩
  refine ⟨rfl, ?_, ?_, ?_, ?_, ?_, rfl⟩
  · show weekday (getWeekStart t) = 1
    simp only [getWeekStart, addDays, weekday, dayOf_add_mul] at hw ⊢
    split <;> omega
  · simp only [getWeekStart, addDays, weekday, dayOf_add_mul] at hw ⊢
    split <;> omega
  · simp only [getWeekStart, addDays, weekday, dayOf_add_mul] at hw ⊢
    split <;> omega
  · intro h
    simp only [getWeekStart, addDays, h]
    norm_num
  · intro h
    simp only [getWeekStart, addDays, h]
    norm_num

/-- C7 witness: day 6 of the epoch (1970-01-07) was a Wednesday; its week
start is the Monday two days prior, and day 3 (1970-01-04) was a Sunday,
mapping six days back. -/
theorem c7_week_start_witness :
    getWeekStart (6 * 86400000) = addDays (6 * 86400000) (-2) ∧
    getWeekStart (3 * 86400000) = addDays (3 * 86400000) (-6) :=
  ⟨(c7_week_start (6 * 86400000)).2.2.2.2.1 (by decide),
   (c7_week_start (3 * 86400000)).2.2.2.2.2.1 (by decide)⟩

/-- Replace-first recursion returns null exactly when no element matches. -/
theorem updateFoodEntry_not_found (id : String) (u : FoodEntryUpdate) :
    ∀ (l : List FoodEntry), (∀ e ∈ l, e.id ≠ id) → updateFoodEntry id u l = (l, none)
  | [], _ => rfl
  | e :: rest, h => by
    have he : ¬ (e.id = id) := h e (.head _)
    have ih := updateFoodEntry_not_found id u rest (fun x hx => h x (.tail _ hx))
    simp [updateFoodEntry, he, ih]

/-- Replace-first recursion merges the first matching element in place. -/
theorem updateFoodEntry_found (id : String) (u : FoodEntryUpdate) :
    ∀ (l1 : List FoodEntry) (e : FoodEntry) (l2 : List FoodEntry),
      (∀ x ∈ l1, x.id ≠ id) → e.id = id →
      updateFoodEntry id u (l1 ++ e :: l2) =
        (l1 ++ mergeFoodEntry e u :: l2, some (mergeFoodEntry e u))
  | [], e, l2, _, he => by simp [updateFoodEntry, he]
  | x :: l1, e, l2, h, he => by
    have hx : ¬ (x.id = id) := h x (.head _)
    have ih := updateFoodEntry_found id u l1 e l2 (fun y hy => h y (.tail _ hy)) he
    simp [updateFoodEntry, hx, ih]

/-- Recipe analogue of `updateFoodEntry_not_found`. -/
theorem updateRecipe_not_found (id : String) (u : RecipeUpdate) :
    ∀ (l : List Recipe), (∀ r ∈ l, r.id ≠ id) → updateRecipe id u l = (l, none)
  | [], _ => rfl
  | r :: rest, h => by
    have hr : ¬ (r.id = id) := h r (.head _)
    have ih := updateRecipe_not_found id u rest (fun x hx => h x (.tail _ hx))
    simp [updateRecipe, hr, ih]

/-- Recipe analogue of `updateFoodEntry_found`. -/
theorem updateRecipe_found (id : String) (u : RecipeUpdate) :
    ∀ (l1 : List Recipe) (r : Recipe) (l2 : List Recipe),
      (∀ x ∈ l1, x.id ≠ id) → r.id = id →
      updateRecipe id u (l1 ++ r :: l2) =
        (l1 ++ mergeRecipe r u :: l2, some (mergeRecipe r u))
  | [], r, l2, _, hr => by simp [updateRecipe, hr]
  | x :: l1, r, l2, h, hr => by
    have hx : ¬ (x.id = id) := h x (.head _)
    have ih := updateRecipe_found id u l1 r l2 (fun y hy => h y (.tail _ hy)) hr
    simp [updateRecipe, hx, ih]

/-- C5: updating a food entry or recipe whose id matches replaces the first
matching record with the shallow merge of the updates onto it (updates take
precedence on a key conflict, absent keys keep the stored value) and returns
the merged record; when no record matches, the operation returns null and
the stored collection is unchanged. -/
theorem c5_update_merge_or_null
    (food : List FoodEntry) (recipes : List Recipe) (id : String)
    (uf : FoodEntryUpdate) (ur : RecipeUpdate) :
    ((∀ e ∈ food, e.id ≠ id) → updateFoodEntry id uf food = (food, none)) ∧
    (∀ (l1 : List FoodEntry) (e : FoodEntry) (l2 : List FoodEntry),
      food = l1 ++ e :: l2 → (∀ x ∈ l1, x.id ≠ id) → e.id = id →
      updateFoodEntry id uf food =
        (l1 ++ mergeFoodEntry e uf :: l2, some (mergeFoodEntry e uf))) ∧
    (∀ (e : FoodEntry) (v : String), uf.name = some v → (mergeFoodEntry e uf).name = v) ∧
    (∀ e : FoodEntry, uf.name = none → (mergeFoodEntry e uf).name = e.name) ∧
    ((∀ r ∈ recipes, r.id ≠ id) → updateRecipe id ur recipes = (recipes, none)) ∧
    (∀ (l1 : List Recipe) (r : Recipe) (l2 : List Recipe),
      recipes = l1 ++ r :: l2 → (∀ x ∈ l1, x.id ≠ id) → r.id = id →
      updateRecipe id ur recipes =
        (l1 ++ mergeRecipe r ur :: l2, some (mergeRecipe r ur))) := by
  refine ⟨updateFoodEntry_not_found id uf food, ?_, ?_, ?_,
    updateRecipe_not_found id ur recipes, ?_⟩
  · intro l1 e l2 hfood h1 he
    subst hfood
    exact updateFoodEntry_found id uf l1 e l2 h1 he
  · intro e v h; simp [mergeFoodEntry, h]
  · intro e h; simp [mergeFoodEntry, h]
  · intro l1 r l2 hrec h1 hr
    subst hrec
    exact updateRecipe_found id ur l1 r l2 h1 hr

/-- C5 witness: updating the only entry of a singleton collection replaces
it by the merge, and updating a missing id leaves the collection alone. -/
theorem c5_update_merge_or_null_witness :
    updateFoodEntry "1" { name := some "Toast" }
      [{ id := "1", name := "Egg", quantity := none, calories := some "70",
         date := 0, createdAt := 0 }] =
      ([{ id := "1", name := "Toast", quantity := none, calories := some "70",
          date := 0, createdAt := 0 }],
       some { id := "1", name := "Toast", quantity := none, calories := some "70",
              date := 0, createdAt := 0 }) ∧
    updateRecipe "2" {} [] = ([], none) := by
  constructor
  · have h := (c5_update_merge_or_null
      [{ id := "1", name := "Egg", quantity := none, calories := some "70",
         date := 0, createdAt := 0 }] [] "1" { name := some "Toast" } {}).2.1
      [] { id := "1", name := "Egg", quantity := none, calories := some "70",
           date := 0, createdAt := 0 } [] rfl (by simp) rfl
    simpa [mergeFoodEntry] using h
  · exact (c5_update_merge_or_null [] [] "2" {} {}).2.2.2.2.1 (by simp)

/-- The normalized range bounds compare a timestamp exactly as the calendar
day indices compare. -/
theorem range_bounds_iff (s e d : Int) :
    (startOfDay s ≤ d ↔ dayOf s ≤ dayOf d) ∧ (d ≤ endOfDay e ↔ dayOf d ≤ dayOf e) := by
  constructor
  · rw [startOfDay]
    exact le_dayOf_iff.symm
  · rw [endOfDay, startOfDay]
    exact dayOf_le_iff.symm

/-- C3: for start before or equal to end, the range query returns exactly
the entries whose date lies in the inclusive interval from the start
normalized to 00:00:00.000 up to the end normalized to 23:59:59.999; an
entry dated on the same calendar day as the start or as the end is included,
and an entry dated one day before the start or one day after the end is
excluded. -/
theorem c3_range_inclusivity (entries : List FoodEntry) (s e : Int) (hse : s ≤ e) :
    (∀ x, x ∈ getFoodEntriesByDateRange s e entries ↔
      (x ∈ entries ∧ startOfDay s ≤ x.date ∧ x.date ≤ endOfDay e)) ∧
    (∀ x ∈ entries, (dayOf x.date = dayOf s ∨ dayOf x.date = dayOf e) →
      x ∈ getFoodEntriesByDateRange s e entries) ∧
    (∀ x ∈ entries, (dayOf x.date = dayOf s - 1 ∨ dayOf x.date = dayOf e + 1) →
      x ∉ getFoodEntriesByDateRange s e entries) := by
  have hmem : ∀ x : FoodEntry, x ∈ getFoodEntriesByDateRange s e entries ↔
      (x ∈ entries ∧ startOfDay s ≤ x.date ∧ x.date ≤ endOfDay e) := by
    intro x
    simp [getFoodEntriesByDateRange, List.mem_filter]
  have hd : dayOf s ≤ dayOf e := dayOf_mono hse
  refine ⟨hmem, ?_, ?_⟩
  · intro x hx hday
    refine (hmem x).mpr ⟨hx, ?_, ?_⟩
    · rw [(range_bounds_iff s e x.date).1]
      rcases hday with h | h <;> omega
    · rw [(range_bounds_iff s e x.date).2]
      rcases hday with h | h <;> omega
  · intro x hx hday hmem2
    obtain ⟨-, h1, h2⟩ := (hmem x).mp hmem2
    rw [(range_bounds_iff s e x.date).1] at h1
    rw [(range_bounds_iff s e x.date).2] at h2
    rcases hday with h | h <;> omega

/-- C3 witness: with the range spanning days 0 and 1, an entry dated on day
0 (the start day) is returned. -/
theorem c3_range_inclusivity_witness :
    ({ id := "1", name := "Egg", quantity := none, calories := some "70",
       date := 0, createdAt := 0 } : FoodEntry) ∈
      getFoodEntriesByDateRange 0 86400000
        [{ id := "1", name := "Egg", quantity := none, calories := some "70",
           date := 0, createdAt := 0 }] :=
  (c3_range_inclusivity
      [{ id := "1", name := "Egg", quantity := none, calories := some "70",
         date := 0, createdAt := 0 }] 0 86400000 (by norm_num)).2.1
    _ (List.mem_singleton.mpr rfl) (Or.inl (by decide))

/-- C4 counterexample: with the current date on local day 30, the last
monthly window is the pair of timestamps on days 23 and 29 — so the last
rolling window ends the day before today — and the bucket query of that last
window does not return an entry dated today: the last window does not
include today, refuting the claim that the four buckets end at today. -/
theorem c4_counterexample :
    (monthlyWindows (30 * 86400000)).getLast? =
      some (23 * 86400000, 29 * 86400000) ∧
    getFoodEntriesByDateRange (23 * 86400000) (29 * 86400000)
      [{ id := "1", name := "Egg", quantity := none, calories := some "70",
         date := 30 * 86400000, createdAt := 0 }] = [] := by
  constructor
  · decide
  · decide

/-- C4 amended: the monthly series consists of four consecutive trailing
7-day windows, oldest first, starting 28 days before today; the windows are
rolling 7-day windows (not calendar weeks), each pair of neighbours abuts,
and the last window spans the seven days ending at yesterday — it excludes
today; each bucket is the calorie sum over its window via the inclusive
date-range query. -/
theorem c4_monthly_windows (today : Int) (entries : List FoodEntry) :
    monthlyWindows today =
      [(addDays today (-28), addDays today (-22)),
       (addDays today (-21), addDays today (-15)),
       (addDays today (-14), addDays today (-8)),
       (addDays today (-7), addDays today (-1))] ∧
    (monthlyWindows today).Chain' (fun a b => b.1 = addDays a.2 1) ∧
    (∀ w ∈ monthlyWindows today, dayOf w.2 = dayOf w.1 + 6) ∧
    ((monthlyWindows today).getLast?).map (fun w => dayOf w.2) =
      some (dayOf today - 1) ∧
    monthlySeries today entries =
      (monthlyWindows today).map (fun w =>
        calculateTotalCalories (getFoodEntriesByDateRange w.1 w.2 entries)) := by
  have hlist : monthlyWindows today =
      [(addDays today (-28), addDays today (-22)),
       (addDays today (-21), addDays today (-15)),
       (addDays today (-14), addDays today (-8)),
       (addDays today (-7), addDays today (-1))] := by
    simp only [monthlyWindows, List.map_cons, List.map_nil, addDays, msPerDay,
      List.cons.injEq, Prod.mk.injEq, and_true]
    omega
  refine ⟨hlist, ?_, ?_, ?_, rfl⟩
  · rw [hlist]
    simp only [List.chain'_cons, List.chain'_singleton, and_true, addDays]
    norm_num [msPerDay]
    ring_nf
    norm_num
  · rw [hlist]
    intro w hw
    simp only [List.mem_cons, List.not_mem_nil, or_false] at hw
    rcases hw with h | h | h | h <;>
      subst h <;>
      simp only [addDays, dayOf_add_mul] <;> ring
  · rw [hlist]
    simp only [List.getLast?_cons_cons, List.getLast?_singleton, addDays,
      Option.map_some', Option.some.injEq, dayOf_add_mul]
    omega

/-- A hit of the upsert step keeps the day keys and the length of the
collection: the same-day entry is overwritten in place. -/
theorem replaceFirstSameDay_some (entry : WeightEntry) :
    ∀ (l l' : List WeightEntry), replaceFirstSameDay entry l = some l' →
      l'.map dayKey = l.map dayKey ∧ l'.length = l.length
  | [], l', h => by simp [replaceFirstSameDay] at h
  | e :: rest, l', h => by
    by_cases hd : dayOf e.date = dayOf entry.date
    · rw [replaceFirstSameDay, if_pos hd, Option.some.injEq] at h
      subst h
      simp [dayKey, hd]
    · rw [replaceFirstSameDay, if_neg hd, Option.map_eq_some'] at h
      obtain ⟨l'', h1, h2⟩ := h
      subst h2
      have ih := replaceFirstSameDay_some entry rest l'' h1
      simp [ih.1, ih.2]

/-- A miss of the upsert step means no stored entry shares the calendar day
of the new entry. -/
theorem replaceFirstSameDay_none (entry : WeightEntry) :
    ∀ (l : List WeightEntry), replaceFirstSameDay entry l = none →
      ∀ e ∈ l, dayKey e ≠ dayKey entry
  | [], _, e, he => absurd he (List.not_mem_nil e)
  | x :: rest, h, e, he => by
    by_cases hd : dayOf x.date = dayOf entry.date
    · rw [replaceFirstSameDay, if_pos hd] at h
      exact absurd h (by simp)
    · rw [replaceFirstSameDay, if_neg hd, Option.map_eq_none'] at h
      rcases List.mem_cons.mp he with rfl | he2
      · exact hd
      · exact replaceFirstSameDay_none entry rest h e he2

/-- When some stored entry shares the calendar day, the upsert step hits. -/
theorem replaceFirstSameDay_hit (entry : WeightEntry) (l : List WeightEntry)
    (h : ∃ e ∈ l, dayKey e = dayKey entry) :
    ∃ l', replaceFirstSameDay entry l = some l' := by
  cases hr : replaceFirstSameDay entry l with
  | some l' => exact ⟨l', rfl⟩
  | none =>
    obtain ⟨e, he, hk⟩ := h
    exact absurd hk (replaceFirstSameDay_none entry l hr e he)

/-- Sorting permutes, so it preserves distinctness of the day keys. -/
theorem insertionSort_map_nodup {l : List WeightEntry}
    (h : (l.map dayKey).Nodup) : ((List.insertionSort wle l).map dayKey).Nodup :=
  (((List.perm_insertionSort wle l).map dayKey).nodup_iff).mpr h

/-- The upsert step preserves distinctness of the day keys. -/
theorem upsertByDay_map_nodup (entry : WeightEntry) (l : List WeightEntry)
    (h : (l.map dayKey).Nodup) : ((upsertByDay entry l).map dayKey).Nodup := by
  unfold upsertByDay
  cases hr : replaceFirstSameDay entry l with
  | some l' => rw [(replaceFirstSameDay_some entry l l' hr).1]; exact h
  | none =>
    have hn := replaceFirstSameDay_none entry l hr
    simp only [List.map_append, List.map_singleton, List.nodup_append]
    refine ⟨h, List.nodup_singleton _, ?_⟩
    intro a ha hb
    simp only [List.mem_singleton] at hb
    simp only [List.mem_map] at ha
    obtain ⟨e, he, hk⟩ := ha
    exact hn e he (hk.trans hb)

/-- One save preserves distinctness of the day keys. -/
theorem saveWeightEntry_nodup (now : Int) (inp : WeightEntryIn)
    (l : List WeightEntry) (h : (l.map dayKey).Nodup) :
    (((saveWeightEntry now inp l).1).map dayKey).Nodup :=
  insertionSort_map_nodup (upsertByDay_map_nodup (mkWeightEntry now inp) l h)

/-- Every state reached by saves alone has pairwise-distinct day keys. -/
theorem applyWeightSaves_nodup (ops : List (Int × WeightEntryIn)) :
    ((applyWeightSaves ops).map dayKey).Nodup := by
  suffices h : ∀ (l : List WeightEntry), (l.map dayKey).Nodup →
      ((ops.foldl (fun l p => (saveWeightEntry p.1 p.2 l).1) l).map dayKey).Nodup by
    exact h [] (by simp)
  induction ops with
  | nil => intro l h; simpa using h
  | cons p ops ih =>
    intro l h
    exact ih _ (saveWeightEntry_nodup p.1 p.2 l h)

/-- Saving onto a collection that already has an entry of the same calendar
day does not change the number of entries. -/
theorem saveWeightEntry_length_hit (now : Int) (inp : WeightEntryIn)
    (l : List WeightEntry) (h : ∃ e ∈ l, dayOf e.date = dayOf inp.date) :
    ((saveWeightEntry now inp l).1).length = l.length := by
  show (List.insertionSort wle (upsertByDay (mkWeightEntry now inp) l)).length = l.length
  rw [(List.perm_insertionSort wle _).length_eq]
  obtain ⟨l', hl'⟩ := replaceFirstSameDay_hit (mkWeightEntry now inp) l
    (by obtain ⟨e, he, hk⟩ := h; exact ⟨e, he, hk⟩)
  rw [upsertByDay, hl']
  exact (replaceFirstSameDay_some _ l l' hl').2

/-- C1: every state reachable by weight-entry saves from the empty
collection has at most one entry per calendar date; saving onto an
already-present date overwrites in place (the new fields win and the length
does not grow); in the concrete scenario, saving weight 70 and then weight
69.5 for 2024-01-01 leaves a single entry of weight 69.5. -/
theorem c1_weight_unique_per_day (ops : List (Int × WeightEntryIn)) :
    ((applyWeightSaves ops).map dayKey).Nodup ∧
    (∀ (l : List WeightEntry) (now : Int) (inp : WeightEntryIn),
      (∃ e ∈ l, dayOf e.date = dayOf inp.date) →
      ((saveWeightEntry now inp l).1).length = l.length) ∧
    ((saveWeightEntry 1704200000000 ⟨1704067200000, mkRat 139 2⟩
        ((saveWeightEntry 1704100000000 ⟨1704067200000, 70⟩ []).1)).1.length = 1 ∧
      (saveWeightEntry 1704200000000 ⟨1704067200000, mkRat 139 2⟩
        ((saveWeightEntry 1704100000000 ⟨1704067200000, 70⟩ []).1)).1.map
          (fun e => e.weight) = [mkRat 139 2]) := by
  refine ⟨applyWeightSaves_nodup ops,
    fun l now inp h => saveWeightEntry_length_hit now inp l h, ?_, ?_⟩
  · decide
  · decide

/-- C1 witness: saving a new weight for a day already present in a concrete
singleton collection keeps the length at 1. -/
theorem c1_weight_unique_per_day_witness :
    ((saveWeightEntry 2 ⟨0, 70⟩
      [{ id := "1", date := 0, weight := 71, createdAt := 0 }]).1).length = 1 :=
  (c1_weight_unique_per_day []).2.1
    [{ id := "1", date := 0, weight := 71, createdAt := 0 }] 2 ⟨0, 70⟩
    ⟨_, List.mem_singleton.mpr rfl, rfl⟩

/-- Every state reached by weight writes from the empty collection is
sorted ascending by date: a save re-sorts, a delete filters a sorted list. -/
theorem applyWeightOps_sorted (ops : List WeightOp) :
    List.Sorted wle (applyWeightOps ops) := by
  suffices h : ∀ (l : List WeightEntry), List.Sorted wle l →
      List.Sorted wle (ops.foldl applyWeightOp l) by
    exact h [] List.sorted_nil
  induction ops with
  | nil => intro l h; simpa using h
  | cons op ops ih =>
    intro l h
    refine ih _ ?_
    cases op with
    | save now inp => exact List.sorted_insertionSort wle _
    | del id => exact h.filter _

/-- In a list sorted ascending by date, the last element has the largest
date. -/
theorem sorted_getLast_max :
    ∀ (l : List WeightEntry), List.Sorted wle l →
      ∀ x, l.getLast? = some x → ∀ e ∈ l, e.date ≤ x.date
  | [], _, x, hx => by simp at hx
  | [a], _, x, hx => by
    intro e he
    simp only [List.getLast?_singleton, Option.some.injEq] at hx
    simp only [List.mem_singleton] at he
    subst hx
    subst he
    exact le_refl _
  | a :: b :: l, h, x, hx => by
    have hab : wle a b := (List.sorted_cons.mp h).1 b (List.mem_cons_self b l)
    have ih := sorted_getLast_max (b :: l) (List.sorted_cons.mp h).2 x
      (by simpa [List.getLast?_cons_cons] using hx)
    intro e he
    rcases List.mem_cons.mp he with rfl | he2
    · exact le_trans hab (ih b (List.mem_cons_self b l))
    · exact ih e he2

/-- C2: after every sequence of weight writes (saves and deletes) starting
from the empty collection, the stored collection is sorted non-decreasing
by date; `getLatestWeight` returns the last element, whose date is the
largest in the collection, or null exactly when the collection is empty. -/
theorem c2_sorted_and_latest (ops : List WeightOp) :
    List.Sorted wle (applyWeightOps ops) ∧
    (∀ x, getLatestWeight (applyWeightOps ops) = some x →
      (applyWeightOps ops).getLast? = some x ∧
      ∀ e ∈ applyWeightOps ops, e.date ≤ x.date) ∧
    (getLatestWeight (applyWeightOps ops) = none → applyWeightOps ops = []) := by
  have hs := applyWeightOps_sorted ops
  refine ⟨hs, ?_, ?_⟩
  · intro x hx
    rw [getLatestWeight] at hx
    by_cases hl : (applyWeightOps ops).length = 0
    · rw [if_pos hl] at hx
      exact absurd hx (by simp)
    · rw [if_neg hl] at hx
      exact ⟨hx, sorted_getLast_max _ hs x hx⟩
  · intro hn
    rw [getLatestWeight] at hn
    by_cases hl : (applyWeightOps ops).length = 0
    · exact List.length_eq_zero.mp hl
    · rw [if_neg hl] at hn
      exact List.getLast?_eq_none_iff.mp hn

/-- C2 witness: after one concrete save, the latest weight is the stored
entry, it is the last element, and it bounds every date. -/
theorem c2_sorted_and_latest_witness :
    (applyWeightOps [WeightOp.save 5 ⟨0, 70⟩]).getLast? =
      some (mkWeightEntry 5 ⟨0, 70⟩) ∧
    ∀ e ∈ applyWeightOps [WeightOp.save 5 ⟨0, 70⟩],
      e.date ≤ (mkWeightEntry 5 ⟨0, 70⟩).date :=
  (c2_sorted_and_latest [WeightOp.save 5 ⟨0, 70⟩]).2.1
    (mkWeightEntry 5 ⟨0, 70⟩) (by decide)

/-- C4 witness: the window-span conjunct of the amended statement applied
at the concrete current date 0 and the oldest window. -/
theorem c4_monthly_windows_witness :
    dayOf (addDays (0 : Int) (-22)) = dayOf (addDays (0 : Int) (-28)) + 6 :=
  (c4_monthly_windows 0 []).2.2.1 (addDays 0 (-28), addDays 0 (-22)) (by decide)
